import Mathlib

/-!
# Verification of the better-fetch tool pipeline

Shallow embedding of the `fetch` tool handler in `src/index.ts`:
fetch -> status check -> content-type classification -> HTML-to-Markdown
conversion -> optional link stripping -> whitespace normalization ->
truncation, wrapped in a try/catch that turns thrown failures into error
results.  Text is modelled as `List Char`; the external conversion engine
is a parameter (it may throw); a thrown JavaScript value is modelled by
`Thrown`.
-/

set_option autoImplicit false

namespace BetterFetch

/-- A thrown JavaScript value: either an `Error` instance carrying a
`message`, or any other value whose string form `String(error)` is kept.
Models the `error instanceof Error ? error.message : String(error)`
discrimination in the catch block. -/
inductive Thrown where
  | error (message : List Char)
  | other (stringForm : List Char)
deriving DecidableEq, Repr

/-- The message the catch block extracts from a thrown value
(`error instanceof Error ? error.message : String(error)`). -/
def Thrown.toMessage : Thrown → List Char
  | .error m => m
  | .other s => s

/-- A raw HTTP response as the handler sees it: `response.status`,
`response.statusText`, `response.headers.get("content-type")` (which is
null when the header is absent), and the body `response.text()`. -/
structure RawResponse where
  status : Nat
  statusText : List Char
  contentType : Option (List Char)
  body : List Char
deriving DecidableEq, Repr

/-- The result envelope the handler returns: the single text content item
and the `isError` flag (absent in the source on success, modelled as
`false`). -/
structure ToolResult where
  text : List Char
  isError : Bool
deriving DecidableEq, Repr

/-- Models `response.ok`: the status is in the inclusive range 200..299. -/
def responseOk (status : Nat) : Bool :=
  decide (200 ≤ status) && decide (status ≤ 299)

/-- The error text template `"Error fetching URL: " + rest` used by both
the non-2xx branch and the catch block. -/
def fetchErrorText (rest : List Char) : List Char :=
  "Error fetching URL: ".data ++ rest

/-- The content-type test of the handler:
`contentType.includes("text/html") || contentType.includes("application/xhtml")`.
`String.prototype.includes` is a case-sensitive substring test. -/
def isHtmlContentType (contentType : List Char) : Bool :=
  decide ("text/html".data <:+: contentType) ||
  decide ("application/xhtml".data <:+: contentType)

/-- The literal suffix appended when content is truncated. -/
def truncationSuffix : List Char := "\n\n[Content truncated...]".data

/-- The truncation step, shared verbatim by both branches of the source:
`if (maxLength && result.length > maxLength) result = result.substring(0, maxLength) + "\n\n[Content truncated...]"`.
`maxLength` is an optional number; the guard tests its truthiness
(`undefined` and `0` are falsy).  `substring(0, n)` clamps a negative `n`
to `0`, which `Int.toNat` reproduces. -/
def truncateContent (maxLength : Option Int) (content : List Char) : List Char :=
  match maxLength with
  | none => content
  | some n =>
    if n = 0 then content
    else if (content.length : Int) > n then content.take n.toNat ++ truncationSuffix
    else content

/-! ## Link stripping

`markdown.replace(/\[([^\]]+)\]\([^)]+\)/g, "$1")`: a single left-to-right
pass; at a `[` the regex takes the (nonempty) run of characters up to the
nearest `]`, requires an immediate `(`, takes the (nonempty) run up to the
nearest `)`, and replaces the whole match by the bracketed label; the
replacement text is not rescanned. -/

/-- Split a list at the first occurrence of `stop`: returns the (possibly
empty) run of characters strictly before it and the remainder strictly
after it, or `none` when `stop` does not occur. -/
def splitAtChar (stop : Char) : List Char → Option (List Char × List Char)
  | [] => none
  | c :: rest =>
    if c = stop then some ([], rest)
    else
      match splitAtChar stop rest with
      | some (run, rest') => some (c :: run, rest')
      | none => none

/-- Attempt to match the tail of the link regex right after a `[`:
a nonempty label up to the nearest `]`, an immediate `(`, a nonempty
target up to the nearest `)`.  Returns the label and the text after the
closing `)`. -/
def tryLink (s : List Char) : Option (List Char × List Char) :=
  match splitAtChar ']' s with
  | none => none
  | some (label, afterBracket) =>
    if label = [] then none
    else
      match afterBracket with
      | c :: afterParen =>
        if c = '(' then
          match splitAtChar ')' afterParen with
          | none => none
          | some (url, rest) => if url = [] then none else some (label, rest)
        else none
      | [] => none

/-- Fuelled worker for the single-pass global replace; the fuel is an
upper bound on the input length, so the exhaustion branch is never
reached when called through `stripLinks`. -/
def stripLinksGo : Nat → List Char → List Char
  | _, [] => []
  | 0, s => s
  | fuel + 1, c :: rest =>
    if c = '[' then
      match tryLink rest with
      | some (label, after) => label ++ stripLinksGo fuel after
      | none => c :: stripLinksGo fuel rest
    else c :: stripLinksGo fuel rest

/-- Models `markdown.replace(/\[([^\]]+)\]\([^)]+\)/g, "$1")`. -/
def stripLinks (s : List Char) : List Char :=
  stripLinksGo s.length s

/-- Whether the text contains, at any position, a match of the link
pattern `[label](target)` (nonempty label without `]`, nonempty target
without `)`). -/
def containsLink : List Char → Bool
  | [] => false
  | c :: rest => (decide (c = '[') && (tryLink rest).isSome) || containsLink rest

/-! ## Whitespace normalization

`markdown.replace(/\n{4,}/g, "\n\n\n").replace(/^[\s\n]+/, "").replace(/[\s\n]+$/, "")`.
-/

/-- The JavaScript whitespace class `[\s\n]` restricted to the characters
that can appear here (space, tab, newline, carriage return, vertical tab,
form feed, no-break space, BOM). -/
def isWs (c : Char) : Bool :=
  decide (c = ' ') || decide (c = '\t') || decide (c = '\n') || decide (c = '\r') ||
  decide (c = '\x0B') || decide (c = '\x0C') || decide (c = ' ') || decide (c = '﻿')

/-- Worker for `replace(/\n{4,}/g, "\n\n\n")`: `k` counts the pending run
of newlines already consumed; a run is flushed capped at 3 when a
non-newline character (or the end) is reached. -/
def collapseGo : Nat → List Char → List Char
  | k, [] => List.replicate (min k 3) '\n'
  | k, c :: rest =>
    if c = '\n' then collapseGo (k + 1) rest
    else List.replicate (min k 3) '\n' ++ c :: collapseGo 0 rest

/-- Models `replace(/\n{4,}/g, "\n\n\n")`: every run of 4 or more consecutive
newlines becomes exactly 3; shorter runs are unchanged. -/
def collapseNewlines (s : List Char) : List Char := collapseGo 0 s

/-- Models `replace(/^[\s\n]+/, "")`: drop the leading whitespace run. -/
def trimStart (s : List Char) : List Char := s.dropWhile isWs

/-- Models `replace(/[\s\n]+$/, "")`: drop the trailing whitespace run. -/
def trimEnd (s : List Char) : List Char := (s.reverse.dropWhile isWs).reverse

/-- The whitespace cleanup chain of the source, in its order: collapse
newline runs, then trim the start, then trim the end. -/
def normalizeWhitespace (s : List Char) : List Char :=
  trimEnd (trimStart (collapseNewlines s))

/-- Whether the first character exists and is whitespace. -/
def leadWs : List Char → Bool
  | [] => false
  | c :: _ => isWs c

/-- Whether the last character exists and is whitespace. -/
def trailWs (s : List Char) : Bool := leadWs s.reverse

/-- Whether the text starts with four consecutive newlines. -/
def isQuadHead (s : List Char) : Bool :=
  decide (s.take 4 = ['\n', '\n', '\n', '\n'])

/-- Whether the text contains four consecutive newlines anywhere
(equivalently, a run of 4 or more newlines). -/
def hasQuad : List Char → Bool
  | [] => false
  | c :: rest => isQuadHead (c :: rest) || hasQuad rest

/-! ## The handler -/

/-- The body of the `try` block: status check, classification, conversion
(which may throw, hence `Except`), link stripping, whitespace cleanup and
truncation.  A network failure is the `Except.error` of `fetchResult`;
`convert` is the external engine. -/
def runFetchPipeline (includeLinks : Bool) (maxLength : Option Int)
    (convert : List Char → Except Thrown (List Char))
    (fetchResult : Except Thrown RawResponse) : Except Thrown ToolResult :=
  match fetchResult with
  | Except.error e => Except.error e
  | Except.ok response =>
    if responseOk response.status = false then
      Except.ok ⟨fetchErrorText ((Nat.repr response.status).data ++ ' ' :: response.statusText),
        true⟩
    else
      let contentType := response.contentType.getD []
      if isHtmlContentType contentType = false then
        Except.ok ⟨truncateContent maxLength response.body, false⟩
      else
        match convert response.body with
        | Except.error e => Except.error e
        | Except.ok converted =>
          let afterLinks := if includeLinks then converted else stripLinks converted
          let cleaned := normalizeWhitespace afterLinks
          Except.ok ⟨truncateContent maxLength cleaned, false⟩

/-- The whole handler: the pipeline wrapped in the catch block that turns
any thrown value into `"Error fetching URL: <message>"` with
`isError: true`. -/
def fetchToolHandler (includeLinks : Bool) (maxLength : Option Int)
    (convert : List Char → Except Thrown (List Char))
    (fetchResult : Except Thrown RawResponse) : ToolResult :=
  match runFetchPipeline includeLinks maxLength convert fetchResult with
  | Except.ok res => res
  | Except.error e => ⟨fetchErrorText e.toMessage, true⟩

end BetterFetch

namespace BetterFetch

/-! ## Theorems -/

/-- C1: a response whose status is outside the 2xx success range yields
`isError: true` with text `"Error fetching URL: <status> <statusText>"`,
and the Markdown converter is never invoked (the result does not depend
on the conversion function). -/
theorem c1_non2xx_yields_error (il : Bool) (ml : Option Int)
    (conv conv' : List Char → Except Thrown (List Char)) (r : RawResponse)
    (h : responseOk r.status = false) :
    fetchToolHandler il ml conv (Except.ok r) =
      ⟨fetchErrorText ((Nat.repr r.status).data ++ ' ' :: r.statusText), true⟩ ∧
    fetchToolHandler il ml conv (Except.ok r) = fetchToolHandler il ml conv' (Except.ok r) := by
  constructor <;> simp [fetchToolHandler, runFetchPipeline, h]

/-- Witness for C1 at a concrete 404 response. -/
theorem c1_non2xx_yields_error_witness :
    responseOk 404 = false ∧
    fetchToolHandler true none (fun _ => Except.ok "MD".data)
      (Except.ok ⟨404, "Not Found".data, some "text/html".data, "<p>x</p>".data⟩) =
      ⟨"Error fetching URL: 404 Not Found".data, true⟩ := by
  refine ⟨by decide, ?_⟩
  have h := (c1_non2xx_yields_error true none (fun _ => Except.ok "MD".data)
    (fun _ => Except.ok "OTHER".data)
    ⟨404, "Not Found".data, some "text/html".data, "<p>x</p>".data⟩ (by decide)).1
  rw [h]; decide

/-- C2: a response whose content-type does not contain `text/html` or
`application/xhtml` (in particular a missing header) is passed through:
the text is the raw body subject only to truncation, `isError` is not
set, and the converter is never invoked (the result does not depend on
the conversion function). -/
theorem c2_nonHtml_passthrough (il : Bool) (ml : Option Int)
    (conv conv' : List Char → Except Thrown (List Char)) (r : RawResponse)
    (hok : responseOk r.status = true)
    (hct : isHtmlContentType (r.contentType.getD []) = false) :
    fetchToolHandler il ml conv (Except.ok r) = ⟨truncateContent ml r.body, false⟩ ∧
    fetchToolHandler il ml conv (Except.ok r) = fetchToolHandler il ml conv' (Except.ok r) := by
  constructor <;> simp [fetchToolHandler, runFetchPipeline, hok, hct]

/-- Witness for C2: a 200 response with no content-type header. -/
theorem c2_nonHtml_passthrough_witness :
    fetchToolHandler true none (fun _ => Except.ok "MD".data)
      (Except.ok ⟨200, "OK".data, none, "raw body [x](y)\n\n\n\n\n".data⟩) =
      ⟨"raw body [x](y)\n\n\n\n\n".data, false⟩ := by
  have h := (c2_nonHtml_passthrough true none (fun _ => Except.ok "MD".data)
    (fun _ => Except.ok "OTHER".data)
    ⟨200, "OK".data, none, "raw body [x](y)\n\n\n\n\n".data⟩ (by decide) (by decide)).1
  rw [h]; decide

/-- C3: for a positive `maxLength = n`, text longer than `n` is cut to
its first `n` characters plus the literal truncation suffix (so its
length is at most `n` plus the suffix length and it ends with the
suffix), text of length at most `n` is returned unchanged, and both the
passthrough path and the HTML path apply this same truncation to their
final text. -/
theorem c3_truncation_contract (n : Int) (hn : 0 < n) :
    (∀ s : List Char,
      ((s.length : Int) > n →
        truncateContent (some n) s = s.take n.toNat ++ truncationSuffix ∧
        (truncateContent (some n) s).length ≤ n.toNat + truncationSuffix.length ∧
        truncationSuffix <:+ truncateContent (some n) s) ∧
      ((s.length : Int) ≤ n → truncateContent (some n) s = s)) ∧
    (∀ (il : Bool) (conv : List Char → Except Thrown (List Char)) (r : RawResponse)
        (md : List Char), responseOk r.status = true →
      (isHtmlContentType (r.contentType.getD []) = false →
        fetchToolHandler il (some n) conv (Except.ok r) =
          ⟨truncateContent (some n) r.body, false⟩) ∧
      (isHtmlContentType (r.contentType.getD []) = true →
        conv r.body = Except.ok md →
        fetchToolHandler il (some n) conv (Except.ok r) =
          ⟨truncateContent (some n)
            (normalizeWhitespace (if il then md else stripLinks md)), false⟩)) := by
  constructor
  · intro s
    constructor
    · intro hgt
      have hne : n ≠ 0 := by omega
      have heq : truncateContent (some n) s = s.take n.toNat ++ truncationSuffix := by
        simp [truncateContent, hne, hgt]
      refine ⟨heq, ?_, ?_⟩
      · rw [heq]
        have : (s.take n.toNat).length ≤ n.toNat := by
          simp [List.length_take]
        simp only [List.length_append]
        omega
      · rw [heq]; exact List.suffix_append _ _
    · intro hle
      have hne : n ≠ 0 := by omega
      simp [truncateContent, hne]
      omega
  · intro il conv r md hok
    constructor
    · intro hct
      simp [fetchToolHandler, runFetchPipeline, hok, hct]
    · intro hct hconv
      simp [fetchToolHandler, runFetchPipeline, hok, hct, hconv]

/-- Witness for C3 with `maxLength = 3` on a 7-character passthrough
body. -/
theorem c3_truncation_contract_witness :
    truncateContent (some 3) "abcdefg".data = "abc".data ++ truncationSuffix ∧
    fetchToolHandler true (some 3) (fun _ => Except.ok "MD".data)
      (Except.ok ⟨200, "OK".data, some "application/json".data, "abcdefg".data⟩) =
      ⟨"abc".data ++ truncationSuffix, false⟩ := by
  have h := c3_truncation_contract 3 (by decide)
  refine ⟨((h.1 "abcdefg".data).1 (by decide)).1, ?_⟩
  have h2 := ((h.2 true (fun _ => Except.ok "MD".data)
    ⟨200, "OK".data, some "application/json".data, "abcdefg".data⟩ "MD".data
    (by decide)).1 (by decide))
  rw [h2]; decide

/-- C4: a network failure (thrown fetch) and a thrown conversion failure
are both caught and become `isError: true` with text
`"Error fetching URL: <message>"`, where the message is the error's
`message` field for an `Error` instance and its string form otherwise;
the handler is a total function, so no failure escapes. -/
theorem c4_failures_caught (il : Bool) (ml : Option Int)
    (conv : List Char → Except Thrown (List Char)) (e : Thrown) (r : RawResponse)
    (m : List Char) :
    fetchToolHandler il ml conv (Except.error e) = ⟨fetchErrorText e.toMessage, true⟩ ∧
    (responseOk r.status = true →
      isHtmlContentType (r.contentType.getD []) = true →
      conv r.body = Except.error e →
      fetchToolHandler il ml conv (Except.ok r) = ⟨fetchErrorText e.toMessage, true⟩) ∧
    Thrown.toMessage (Thrown.error m) = m ∧ Thrown.toMessage (Thrown.other m) = m := by
  refine ⟨rfl, ?_, rfl, rfl⟩
  intro hok hct hconv
  simp [fetchToolHandler, runFetchPipeline, hok, hct, hconv]

/-- Witness for C4: a thrown network failure and a converter that throws
on an HTML response. -/
theorem c4_failures_caught_witness :
    fetchToolHandler true none (fun _ => Except.error (Thrown.error "boom".data))
      (Except.error (Thrown.error "net down".data)) =
      ⟨"Error fetching URL: net down".data, true⟩ ∧
    fetchToolHandler true none (fun _ => Except.error (Thrown.error "boom".data))
      (Except.ok ⟨200, "OK".data, some "text/html".data, "<p>x</p>".data⟩) =
      ⟨"Error fetching URL: boom".data, true⟩ := by
  have h := c4_failures_caught true none
    (fun _ => Except.error (Thrown.error "boom".data)) (Thrown.error "net down".data)
    ⟨200, "OK".data, some "text/html".data, "<p>x</p>".data⟩ []
  refine ⟨by rw [h.1]; decide, ?_⟩
  have h2 := c4_failures_caught true none
    (fun _ => Except.error (Thrown.error "boom".data)) (Thrown.error "boom".data)
    ⟨200, "OK".data, some "text/html".data, "<p>x</p>".data⟩ []
  rw [h2.2.1 (by decide) (by decide) rfl]; decide

/-- C8: when the status is 2xx and conversion succeeds, the result never
has `isError` set, whatever `maxLength` and `includeLinks` are. -/
theorem c8_success_no_error (il : Bool) (ml : Option Int)
    (conv : List Char → Except Thrown (List Char)) (r : RawResponse) (md : List Char)
    (hok : responseOk r.status = true) (hconv : conv r.body = Except.ok md) :
    (fetchToolHandler il ml conv (Except.ok r)).isError = false := by
  cases hct : isHtmlContentType (r.contentType.getD []) <;>
    simp [fetchToolHandler, runFetchPipeline, hok, hct, hconv]

/-- Witness for C8 on an aggressively truncated HTML response. -/
theorem c8_success_no_error_witness :
    (fetchToolHandler true (some 1) (fun _ => Except.ok "converted markdown".data)
      (Except.ok ⟨200, "OK".data, some "text/html".data, "<p>x</p>".data⟩)).isError =
      false := by
  exact c8_success_no_error true (some 1) (fun _ => Except.ok "converted markdown".data)
    ⟨200, "OK".data, some "text/html".data, "<p>x</p>".data⟩ "converted markdown".data
    (by decide) rfl

/-- C9: `maxLength = 0` is falsy, so the truncation guard is skipped on
both paths and the full text is returned untruncated even though its
length exceeds 0. -/
theorem c9_maxLength_zero_skips_truncation :
    (∀ s : List Char, truncateContent (some 0) s = s) ∧
    (∀ (il : Bool) (conv : List Char → Except Thrown (List Char)) (r : RawResponse)
        (md : List Char), responseOk r.status = true →
      (isHtmlContentType (r.contentType.getD []) = false →
        fetchToolHandler il (some 0) conv (Except.ok r) = ⟨r.body, false⟩) ∧
      (isHtmlContentType (r.contentType.getD []) = true →
        conv r.body = Except.ok md →
        fetchToolHandler il (some 0) conv (Except.ok r) =
          ⟨normalizeWhitespace (if il then md else stripLinks md), false⟩)) := by
  have htr : ∀ s : List Char, truncateContent (some 0) s = s := by
    intro s; simp [truncateContent]
  refine ⟨htr, ?_⟩
  intro il conv r md hok
  constructor
  · intro hct
    simp [fetchToolHandler, runFetchPipeline, hok, hct, htr]
  · intro hct hconv
    simp [fetchToolHandler, runFetchPipeline, hok, hct, hconv, htr]

/-- Witness for C9: a 5-character body is returned whole under
`maxLength = 0`. -/
theorem c9_maxLength_zero_skips_truncation_witness :
    truncateContent (some 0) "abcde".data = "abcde".data ∧
    fetchToolHandler true (some 0) (fun _ => Except.ok "MD".data)
      (Except.ok ⟨200, "OK".data, some "text/plain".data, "abcde".data⟩) =
      ⟨"abcde".data, false⟩ := by
  refine ⟨c9_maxLength_zero_skips_truncation.1 "abcde".data, ?_⟩
  exact (c9_maxLength_zero_skips_truncation.2 true (fun _ => Except.ok "MD".data)
    ⟨200, "OK".data, some "text/plain".data, "abcde".data⟩ "MD".data
    (by decide)).1 (by decide)

/-- C5 counterexample: the content-type check is `String.prototype.includes`,
which is case-sensitive, so `TEXT/HTML` is NOT classified as HTML and the
body is passed through raw instead of being routed to conversion,
contradicting the claimed case-insensitive match. -/
theorem c5_uppercase_html_not_converted :
    isHtmlContentType "TEXT/HTML".data = false ∧
    fetchToolHandler true none (fun _ => Except.ok "CONVERTED".data)
      (Except.ok ⟨200, "OK".data, some "TEXT/HTML".data, "<p>hi</p>".data⟩) =
      ⟨"<p>hi</p>".data, false⟩ := by decide

/-- C5 amended: the classification is a case-sensitive substring match on
the exact lowercase tokens; a content-type containing `text/html` or
`application/xhtml` verbatim is classified as HTML and routed to
conversion. -/
theorem c5_lowercase_token_routes_to_conversion (il : Bool) (ml : Option Int)
    (conv : List Char → Except Thrown (List Char)) (r : RawResponse) (md ct : List Char)
    (hct : r.contentType = some ct)
    (htok : "text/html".data <:+: ct ∨ "application/xhtml".data <:+: ct)
    (hok : responseOk r.status = true)
    (hconv : conv r.body = Except.ok md) :
    fetchToolHandler il ml conv (Except.ok r) =
      ⟨truncateContent ml (normalizeWhitespace (if il then md else stripLinks md)),
        false⟩ := by
  have hhtml : isHtmlContentType ct = true := by
    rcases htok with h | h <;> simp [isHtmlContentType, h]
  simp [fetchToolHandler, runFetchPipeline, hok, hct, hhtml, hconv]

/-- Witness for the amended C5 on `text/html; charset=utf-8`. -/
theorem c5_lowercase_token_routes_to_conversion_witness :
    fetchToolHandler true none (fun _ => Except.ok "Hello".data)
      (Except.ok ⟨200, "OK".data, some "text/html; charset=utf-8".data,
        "<p>Hello</p>".data⟩) =
      ⟨"Hello".data, false⟩ := by
  have h := c5_lowercase_token_routes_to_conversion true none
    (fun _ => Except.ok "Hello".data)
    ⟨200, "OK".data, some "text/html; charset=utf-8".data, "<p>Hello</p>".data⟩
    "Hello".data "text/html; charset=utf-8".data rfl
    (Or.inl (by decide)) (by decide) rfl
  rw [h]; decide


/-! ### Link-stripping lemmas -/

/-- A successful `splitAtChar` decomposes its input as the run, the stop
character, and the remainder, with the stop character absent from the
run. -/
theorem splitAtChar_eq_some (stop : Char) :
    ∀ (s run rest : List Char), splitAtChar stop s = some (run, rest) →
      s = run ++ stop :: rest ∧ stop ∉ run := by
  intro s
  induction s with
  | nil => intro run rest h; simp [splitAtChar] at h
  | cons c t ih =>
    intro run rest h
    by_cases hc : c = stop
    · subst hc
      simp [splitAtChar] at h
      obtain ⟨h1, h2⟩ := h
      subst h1; subst h2
      simp
    · simp [splitAtChar, hc] at h
      cases h' : splitAtChar stop t with
      | none => rw [h'] at h; simp at h
      | some pr =>
        rw [h'] at h
        obtain ⟨run', rest'⟩ := pr
        simp at h
        obtain ⟨h1, h2⟩ := h
        obtain ⟨ht, hmem⟩ := ih run' rest' h'
        subst h1; subst h2
        constructor
        · simp [ht]
        · simp [hmem]
          intro hceq
          exact hc hceq.symm

/-- The function `splitAtChar` finds the first occurrence of the stop character. -/
theorem splitAtChar_append (stop : Char) :
    ∀ (run rest : List Char), stop ∉ run →
      splitAtChar stop (run ++ stop :: rest) = some (run, rest) := by
  intro run
  induction run with
  | nil => intro rest _; simp [splitAtChar]
  | cons c t ih =>
    intro rest hmem
    have hc : ¬ c = stop := by
      intro h; exact hmem (by simp [h])
    have ht : stop ∉ t := fun h => hmem (List.mem_cons_of_mem c h)
    simp [splitAtChar, hc, ih rest ht]

/-- The matcher `tryLink` succeeds on the regex tail: a nonempty label without `]`,
then `](`, a nonempty target without `)`, then `)`. -/
theorem tryLink_append (l u b : List Char)
    (hl : l ≠ []) (hl2 : ']' ∉ l) (hu : u ≠ []) (hu2 : ')' ∉ u) :
    tryLink (l ++ ']' :: '(' :: (u ++ ')' :: b)) = some (l, b) := by
  have h1 : splitAtChar ']' (l ++ ']' :: ('(' :: (u ++ ')' :: b))) =
      some (l, '(' :: (u ++ ')' :: b)) := splitAtChar_append ']' l _ hl2
  have h2 : splitAtChar ')' (u ++ ')' :: b) = some (u, b) := splitAtChar_append ')' u b hu2
  simp [tryLink, h1, h2, hl, hu]

/-- A successful link match consumes at least the label and the two
delimited runs, so the remainder is strictly shorter. -/
theorem tryLink_length (s label after : List Char)
    (h : tryLink s = some (label, after)) : after.length < s.length := by
  unfold tryLink at h
  cases h1 : splitAtChar ']' s with
  | none => rw [h1] at h; simp at h
  | some pr1 =>
    rw [h1] at h
    obtain ⟨lab, afterBracket⟩ := pr1
    by_cases hlab : lab = []
    · simp [hlab] at h
    · simp [hlab] at h
      cases afterBracket with
      | nil => simp at h
      | cons c rest =>
        by_cases hc : c = '('
        · subst hc
          simp at h
          cases h2 : splitAtChar ')' rest with
          | none => rw [h2] at h; simp at h
          | some pr2 =>
            rw [h2] at h
            obtain ⟨url, rest'⟩ := pr2
            by_cases hurl : url = []
            · simp [hurl] at h
            · simp [hurl] at h
              obtain ⟨h3, h4⟩ := h
              subst h3; subst h4
              have d1 := (splitAtChar_eq_some ']' s _ _ h1).1
              have d2 := (splitAtChar_eq_some ')' rest _ _ h2).1
              have l1 := congrArg List.length d1
              have l2 := congrArg List.length d2
              simp only [List.length_append, List.length_cons] at l1 l2
              omega
        · simp [hc] at h

/-- The fuelled worker does not depend on the fuel once it covers the
input length. -/
theorem stripLinksGo_fuel (f : Nat) :
    ∀ (g : Nat) (s : List Char), s.length ≤ f → s.length ≤ g →
      stripLinksGo f s = stripLinksGo g s := by
  induction f with
  | zero =>
    intro g s hf _
    have : s = [] := List.eq_nil_of_length_eq_zero (Nat.le_zero.mp hf)
    subst this
    cases g <;> rfl
  | succ f ih =>
    intro g s hf hg
    cases s with
    | nil => cases g <;> rfl
    | cons c rest =>
      cases g with
      | zero => simp at hg
      | succ g' =>
        simp only [List.length_cons, Nat.succ_le_succ_iff] at hf hg
        by_cases hc : c = '['
        · subst hc
          cases h : tryLink rest with
          | none =>
            simp only [stripLinksGo, if_pos rfl, if_true, h]
            rw [ih g' rest hf hg]
          | some pr =>
            obtain ⟨label, after⟩ := pr
            have hlen : after.length < rest.length + 1 := Nat.lt_succ_of_lt
              (tryLink_length rest label after h)
            simp only [stripLinksGo, if_pos rfl, if_true, h]
            rw [ih g' after (by omega) (by omega)]
        · simp only [stripLinksGo, if_neg hc]
          rw [ih g' rest hf hg]

/-- Unfolding `stripLinks` at a character that is not `[`. -/
theorem stripLinks_cons_of_ne (c : Char) (s : List Char) (h : c ≠ '[') :
    stripLinks (c :: s) = c :: stripLinks s := by
  simp only [stripLinks, List.length_cons, stripLinksGo, if_neg h]

/-- Unfolding `stripLinks` at a `[` that does not start a link match. -/
theorem stripLinks_cons_noMatch (s : List Char) (h : tryLink s = none) :
    stripLinks ('[' :: s) = '[' :: stripLinks s := by
  simp only [stripLinks, List.length_cons, stripLinksGo, if_pos rfl, if_true, h]

/-- Unfolding `stripLinks` at a `[` that starts a link match: the match
is replaced by its label and scanning resumes after the match, without
rescanning the label. -/
theorem stripLinks_cons_match (s label after : List Char)
    (h : tryLink s = some (label, after)) :
    stripLinks ('[' :: s) = label ++ stripLinks after := by
  have hlen : after.length < s.length := tryLink_length s label after h
  simp only [stripLinks, List.length_cons, stripLinksGo, if_pos rfl, if_true, h]
  rw [stripLinksGo_fuel s.length after.length after (by omega) (by omega)]

/-- Text without `[` is left unchanged by link stripping. -/
theorem stripLinks_of_no_bracket (s : List Char) (h : '[' ∉ s) :
    stripLinks s = s := by
  induction s with
  | nil => rfl
  | cons c t ih =>
    have hc : c ≠ '[' := fun he => h (by simp [he])
    have ht : '[' ∉ t := fun hm => h (List.mem_cons_of_mem c hm)
    rw [stripLinks_cons_of_ne c t hc, ih ht]

/-- C6 counterexample: with nested bracket syntax the single-pass rewrite
can emit text that still contains a well-formed link pattern which also
occurred verbatim in the converter's direct output: on
`[a](c) [[a](b)](c)` the output is `a [a](c)`, and `[a](c)` is a
well-formed link occurring in both. -/
theorem c6_surviving_link_pattern :
    stripLinks "[a](c) [[a](b)](c)".data = "a [a](c)".data ∧
    containsLink (stripLinks "[a](c) [[a](b)](c)".data) = true ∧
    "[a](c)".data <:+: "[a](c) [[a](b)](c)".data ∧
    "[a](c)".data <:+: stripLinks "[a](c) [[a](b)](c)".data := by
  refine ⟨by decide, by decide, ?_, ?_⟩
  · exact ⟨[], " [[a](b)](c)".data, by decide⟩
  · exact ⟨"a ".data, [], by decide⟩

/-- C6 amended: every well-formed link `[l](u)` whose preceding text
contains no `[` (so no earlier match overlaps it) is rewritten to exactly
its label `l`; nested bracket contexts are only best-effort and can leave
link-shaped text behind. -/
theorem c6_link_rewritten_to_label (a l u b : List Char)
    (ha : '[' ∉ a) (hl : l ≠ []) (hl2 : ']' ∉ l) (hu : u ≠ []) (hu2 : ')' ∉ u) :
    stripLinks (a ++ '[' :: (l ++ ']' :: '(' :: (u ++ ')' :: b))) =
      a ++ l ++ stripLinks b := by
  induction a with
  | nil =>
    simp only [List.nil_append]
    rw [stripLinks_cons_match _ l b (tryLink_append l u b hl hl2 hu hu2)]
  | cons c t ih =>
    have hc : c ≠ '[' := fun he => ha (by simp [he])
    have ht : '[' ∉ t := fun hm => ha (List.mem_cons_of_mem c hm)
    simp only [List.cons_append]
    rw [stripLinks_cons_of_ne c _ hc, ih ht]

/-- Witness for the amended C6: `see [a](b) end` becomes `see a end`. -/
theorem c6_link_rewritten_to_label_witness :
    stripLinks "see [a](b) end".data = "see a end".data := by
  have h := c6_link_rewritten_to_label "see ".data "a".data "b".data " end".data
    (by decide) (by decide) (by decide) (by decide) (by decide)
  have e : "see [a](b) end".data =
      "see ".data ++ '[' :: ("a".data ++ ']' :: '(' :: ("b".data ++ ')' :: " end".data)) := by
    decide
  rw [e, h]
  decide

/-- C10: a link with an empty label, `[](url)`, is not matched by the
rewrite (the label must be nonempty), so it survives link stripping
unchanged whenever the target text contains no `[`. -/
theorem c10_empty_label_survives (u : List Char) (h : '[' ∉ u) :
    stripLinks ('[' :: ']' :: '(' :: (u ++ [')'])) =
      '[' :: ']' :: '(' :: (u ++ [')']) := by
  have hnone : tryLink (']' :: '(' :: (u ++ [')'])) = none := by
    simp [tryLink, splitAtChar]
  rw [stripLinks_cons_noMatch _ hnone,
    stripLinks_cons_of_ne ']' _ (by decide), stripLinks_cons_of_ne '(' _ (by decide)]
  have : '[' ∉ u ++ [')'] := by
    intro hm
    rcases List.mem_append.mp hm with hm | hm
    · exact h hm
    · simp at hm
  rw [stripLinks_of_no_bracket _ this]

/-- Witness for C10: the exact text `[](url)` is left unchanged. -/
theorem c10_empty_label_survives_witness :
    stripLinks "[](url)".data = "[](url)".data := by
  have h := c10_empty_label_survives "url".data (by decide)
  have e : "[](url)".data = '[' :: ']' :: '(' :: ("url".data ++ [')']) := by decide
  rw [e, h]


/-! ### Whitespace lemmas -/

/-- Short newline runs contain no quadruple newline. -/
theorem hasQuad_replicate_le (m : Nat) (hm : m ≤ 3) :
    hasQuad (List.replicate m '\n') = false := by
  interval_cases m <;> decide

/-- The head test fails when the first character is not a newline. -/
theorem isQuadHead_cons_ne (c : Char) (t : List Char) (h : c ≠ '\n') :
    isQuadHead (c :: t) = false := by
  simp [isQuadHead, List.take_succ_cons, h]

/-- Unfolding `hasQuad` one step. -/
theorem hasQuad_cons (c : Char) (t : List Char) :
    hasQuad (c :: t) = (isQuadHead (c :: t) || hasQuad t) := rfl

/-- Absence of a quadruple newline passes to the tail. -/
theorem hasQuad_tail (c : Char) (t : List Char) (h : hasQuad (c :: t) = false) :
    hasQuad t = false := by
  rw [hasQuad_cons] at h
  exact (Bool.or_eq_false_iff.mp h).2

/-- A head match is preserved by appending on the right. -/
theorem isQuadHead_append (p b : List Char) (h : isQuadHead p = true) :
    isQuadHead (p ++ b) = true := by
  have h4 : p.take 4 = ['\n', '\n', '\n', '\n'] := by
    simpa [isQuadHead] using h
  have hlen : 4 ≤ p.length := by
    have := congrArg List.length h4
    simp [List.length_take] at this
    omega
  have hsplit : p = p.take 4 ++ p.drop 4 := (List.take_append_drop 4 p).symm
  have : (p ++ b).take 4 = ['\n', '\n', '\n', '\n'] := by
    conv_lhs => rw [hsplit]
    rw [List.append_assoc, h4]
    exact List.take_left' (by simp)
  simp [isQuadHead, this]

/-- A quadruple newline in a prefix is a quadruple newline in the whole. -/
theorem hasQuad_append_of_left (p b : List Char) (h : hasQuad p = true) :
    hasQuad (p ++ b) = true := by
  induction p with
  | nil => simp [hasQuad] at h
  | cons c t ih =>
    rw [hasQuad_cons] at h
    rw [List.cons_append, hasQuad_cons]
    rcases Bool.or_eq_true_iff.mp h with h1 | h2
    · rw [← List.cons_append]
      exact Bool.or_eq_true_iff.mpr (Or.inl (isQuadHead_append (c :: t) b h1))
    · exact Bool.or_eq_true_iff.mpr (Or.inr (ih h2))

/-- No quadruple newline in the whole means none in a prefix. -/
theorem hasQuad_false_of_append_left (p b : List Char)
    (h : hasQuad (p ++ b) = false) : hasQuad p = false := by
  cases hp : hasQuad p with
  | false => rfl
  | true => rw [hasQuad_append_of_left p b hp] at h; exact h.symm ▸ rfl

/-- No quadruple newline in the whole means none in a suffix. -/
theorem hasQuad_false_of_append_right (a t : List Char)
    (h : hasQuad (a ++ t) = false) : hasQuad t = false := by
  induction a with
  | nil => simpa using h
  | cons c a' ih =>
    rw [List.cons_append] at h
    exact ih (hasQuad_tail c (a' ++ t) h)

/-- No quadruple newline in any list means none in a prefix of it. -/
theorem hasQuad_false_of_isPre (p s : List Char) (hp : p <+: s)
    (h : hasQuad s = false) : hasQuad p = false := by
  obtain ⟨t, rfl⟩ := hp
  exact hasQuad_false_of_append_left p t h

/-- No quadruple newline in any list means none in a suffix of it. -/
theorem hasQuad_false_of_isSuf (p s : List Char) (hp : p <:+ s)
    (h : hasQuad s = false) : hasQuad p = false := by
  obtain ⟨t, rfl⟩ := hp
  exact hasQuad_false_of_append_right t p h



/-- A capped newline run followed by a non-newline head and quad-free
tail is quad-free. -/
theorem hasQuad_run_cons (m : Nat) (hm : m ≤ 3) (c : Char) (t : List Char)
    (hc : c ≠ '\n') (ht : hasQuad t = false) :
    hasQuad (List.replicate m '\n' ++ c :: t) = false := by
  have hhead : ∀ u : List Char, hasQuad (c :: u) = hasQuad u := by
    intro u
    rw [hasQuad_cons, isQuadHead_cons_ne c u hc]
    simp
  interval_cases m
  · simpa [hhead] using ht
  · simp only [List.replicate_succ, List.replicate_zero, List.nil_append,
      List.cons_append, hasQuad_cons]
    simp [isQuadHead, List.take_succ_cons, hc, hhead, ht]
  · simp only [List.replicate_succ, List.replicate_zero, List.nil_append,
      List.cons_append, hasQuad_cons]
    simp [isQuadHead, List.take_succ_cons, hc, hhead, ht]
  · simp only [List.replicate_succ, List.replicate_zero, List.nil_append,
      List.cons_append, hasQuad_cons]
    simp [isQuadHead, List.take_succ_cons, hc, hhead, ht]

/-- The newline-collapsing pass never leaves four consecutive newlines. -/
theorem hasQuad_collapseGo (s : List Char) :
    ∀ k : Nat, hasQuad (collapseGo k s) = false := by
  induction s with
  | nil =>
    intro k
    simp only [collapseGo]
    exact hasQuad_replicate_le (min k 3) (Nat.min_le_right k 3)
  | cons c rest ih =>
    intro k
    by_cases hc : c = '\n'
    · subst hc
      simp only [collapseGo, if_pos rfl, if_true]
      exact ih (k + 1)
    · simp only [collapseGo, if_neg hc]
      exact hasQuad_run_cons (min k 3) (Nat.min_le_right k 3) c _ hc (ih 0)

/-- The collapsing pass is the identity on quad-free text (stated with
the pending run made explicit). -/
theorem collapseGo_of_no_quad (s : List Char) :
    ∀ k : Nat, k ≤ 3 → hasQuad (List.replicate k '\n' ++ s) = false →
      collapseGo k s = List.replicate k '\n' ++ s := by
  induction s with
  | nil =>
    intro k hk _
    simp only [collapseGo, List.append_nil]
    rw [Nat.min_eq_left hk]
  | cons c rest ih =>
    intro k hk h
    by_cases hc : c = '\n'
    · subst hc
      have hk2 : k ≤ 2 := by
        by_contra hgt
        have hk3 : k = 3 := by omega
        subst hk3
        have he : List.replicate 3 '\n' ++ '\n' :: rest =
            '\n' :: '\n' :: '\n' :: '\n' :: rest := rfl
        rw [he, hasQuad_cons] at h
        have hq : isQuadHead ('\n' :: '\n' :: '\n' :: '\n' :: rest) = true := by
          simp [isQuadHead, List.take_succ_cons]
        rw [hq] at h
        simp at h
      have hshift : List.replicate k '\n' ++ '\n' :: rest =
          List.replicate (k + 1) '\n' ++ rest := by
        rw [List.replicate_succ' k '\n', List.append_assoc]
        rfl
      simp only [collapseGo, if_pos rfl, if_true]
      rw [ih (k + 1) (by omega) (by rw [← hshift]; exact h), ← hshift]
    · simp only [collapseGo, if_neg hc]
      rw [Nat.min_eq_left hk]
      have hrest : hasQuad rest = false := by
        have h1 : hasQuad (c :: rest) = false :=
          hasQuad_false_of_append_right (List.replicate k '\n') (c :: rest) h
        exact hasQuad_tail c rest h1
      rw [ih 0 (by omega) (by simpa using hrest)]
      simp

/-- The collapsing pass is the identity on quad-free text. -/
theorem collapseNewlines_of_no_quad (s : List Char) (h : hasQuad s = false) :
    collapseNewlines s = s := by
  have := collapseGo_of_no_quad s 0 (by omega) (by simpa using h)
  simpa [collapseNewlines] using this



/-- After dropping the leading whitespace run the head (if any) is not
whitespace. -/
theorem leadWs_dropWhile (l : List Char) :
    leadWs (l.dropWhile isWs) = false := by
  induction l with
  | nil => rfl
  | cons c t ih =>
    rw [List.dropWhile_cons]
    by_cases hc : isWs c = true
    · simp [hc, ih]
    · simp only [hc, if_false]
      simp only [leadWs]
      exact Bool.not_eq_true _ ▸ (by simpa using hc)

/-- Text whose head is not whitespace is unchanged by the leading trim. -/
theorem dropWhile_of_leadWs_false (l : List Char) (h : leadWs l = false) :
    l.dropWhile isWs = l := by
  cases l with
  | nil => rfl
  | cons c t =>
    simp only [leadWs] at h
    rw [List.dropWhile_cons, h]
    simp

/-- The trailing trim returns a prefix of its input. -/
theorem trimEnd_isPre (s : List Char) : trimEnd s <+: s := by
  have h1 : s.reverse.dropWhile isWs <:+ s.reverse := List.dropWhile_suffix isWs
  have h2 : (s.reverse.dropWhile isWs).reverse <+: s := by
    rw [← List.reverse_reverse s]
    exact List.reverse_prefix.mpr (by rw [List.reverse_reverse]; exact h1)
  exact h2

/-- The leading trim returns a suffix of its input. -/
theorem trimStart_isSuf (s : List Char) : trimStart s <:+ s :=
  List.dropWhile_suffix isWs

/-- A prefix of text with a non-whitespace head also has a
non-whitespace head. -/
theorem leadWs_false_of_isPre (p s : List Char) (hp : p <+: s)
    (h : leadWs s = false) : leadWs p = false := by
  obtain ⟨t, rfl⟩ := hp
  cases p with
  | nil => rfl
  | cons c q => simpa [leadWs] using h

/-- The trailing trim leaves no trailing whitespace. -/
theorem trailWs_trimEnd (s : List Char) : trailWs (trimEnd s) = false := by
  simp only [trailWs, trimEnd, List.reverse_reverse]
  exact leadWs_dropWhile s.reverse

/-- Text with no trailing whitespace is unchanged by the trailing trim. -/
theorem trimEnd_of_trailWs_false (s : List Char) (h : trailWs s = false) :
    trimEnd s = s := by
  simp only [trailWs] at h
  simp only [trimEnd, dropWhile_of_leadWs_false s.reverse h, List.reverse_reverse]

/-- C7: the whitespace-normalization chain (collapse runs of 4 or more
newlines to 3, trim the start, trim the end) is idempotent, and its
output has no leading whitespace, no trailing whitespace, and no run of
4 or more consecutive newlines. -/
theorem c7_normalize_idempotent (s : List Char) :
    normalizeWhitespace (normalizeWhitespace s) = normalizeWhitespace s ∧
    hasQuad (normalizeWhitespace s) = false ∧
    leadWs (normalizeWhitespace s) = false ∧
    trailWs (normalizeWhitespace s) = false := by
  have hCquad : hasQuad (collapseNewlines s) = false := hasQuad_collapseGo s 0
  have hAquad : hasQuad (trimStart (collapseNewlines s)) = false :=
    hasQuad_false_of_isSuf _ _ (trimStart_isSuf _) hCquad
  have hAlead : leadWs (trimStart (collapseNewlines s)) = false :=
    leadWs_dropWhile _
  have hBpre : normalizeWhitespace s <+: trimStart (collapseNewlines s) :=
    trimEnd_isPre _
  have hBquad : hasQuad (normalizeWhitespace s) = false :=
    hasQuad_false_of_isPre _ _ hBpre hAquad
  have hBlead : leadWs (normalizeWhitespace s) = false :=
    leadWs_false_of_isPre _ _ hBpre hAlead
  have hBtrail : trailWs (normalizeWhitespace s) = false := trailWs_trimEnd _
  refine ⟨?_, hBquad, hBlead, hBtrail⟩
  show trimEnd (trimStart (collapseNewlines (normalizeWhitespace s))) =
    normalizeWhitespace s
  rw [collapseNewlines_of_no_quad _ hBquad,
    show trimStart (normalizeWhitespace s) = normalizeWhitespace s from
      dropWhile_of_leadWs_false _ hBlead,
    trimEnd_of_trailWs_false _ hBtrail]


end BetterFetch
